import Mathlib

/-!
Verification of the Ising demon Monte Carlo engine (src/ising.py).

The Python class `IsingSim` is shallowly embedded as a state structure `Sim L`
together with pure state-transition functions, one per method:

* `mkSim`          — `IsingSim.__init__` (lines 11-35), before the final `self.init()` call;
* `init`           — `IsingSim.init` (lines 39-53), via the fuel recursion `initLoop`;
* `step`           — `IsingSim.step` (lines 55-73), via `candidate` and `sweep`;
* `get_delta`      — `IsingSim.get_delta` (lines 75-83);
* `get_random_pt`  — `IsingSim.get_random_pt` (lines 85-91);
* `new`            — constructing `IsingSim(L, energy)`, i.e. `mkSim` followed by `init`.

Machine-integer fields become `ℤ`/`ℕ` (Python ints are unbounded; the numpy int64
accumulators cannot overflow at any realistic step count).  The float expression
assigned to `self.temperature` is modelled exactly: the state stores `temp_arg`,
the rational argument passed to `np.log` on lines 71-73, computed in `ℚ`; the
stored temperature is `4.0 / log temp_arg` and is determined by `temp_arg`.

Randomness: `np.random.randint(self.L, size=(self.nrand, 2))` is modelled by an
oracle `rng : ℕ → ℕ → Pt L` held in the state — `rng b i` is entry `i` of the
`b`-th batch drawn.  `np.random.randint(L)` guarantees both components lie in
`[0, L)`, which the type `Fin L × Fin L` records.  The unused field
`dem_energy_dist` (line 14) is omitted.
-/

namespace Ising

/-- A lattice point: a (row, col) pair with both components in [0, L), as produced
by `np.random.randint(L, size=(nrand, 2))`. -/
abbrev Pt (L : ℕ) := Fin L × Fin L

/-- The state of an `IsingSim` instance (lines 11-35 list the fields). -/
structure Sim (L : ℕ) where
  target_energy : ℤ
  sys_energy : ℤ
  dem_energy : ℤ
  mcs : ℕ
  sys_energy_acc : ℤ
  dem_energy_acc : ℤ
  magnetization : ℤ
  m_acc : ℤ
  m2_acc : ℤ
  accepted_moves : ℕ
  temp_arg : ℚ
  lattice : Fin L → Fin L → ℤ
  irand : ℕ
  nrand : ℕ
  batch : ℕ
  rng : ℕ → ℕ → Pt L

/-- `IsingSim.__init__(L, energy)` up to (not including) the final `self.init()`
call: all counters zero, the lattice filled with `UP = 1`
(`np.full((L, L), UP)`, line 27), `nrand = 1024 * 10` (line 34), and the first
random batch (batch 0) pre-drawn.  `temperature` starts at `0` (line 25);
`temp_arg := 0` is the corresponding placeholder for the not-yet-computed
log argument. -/
def mkSim (L : ℕ) (t : ℤ) (rng : ℕ → ℕ → Pt L) : Sim L where
  target_energy := t
  sys_energy := 0
  dem_energy := 0
  mcs := 0
  sys_energy_acc := 0
  dem_energy_acc := 0
  magnetization := 0
  m_acc := 0
  m2_acc := 0
  accepted_moves := 0
  temp_arg := 0
  lattice := fun _ _ => 1
  irand := 0
  nrand := 1024 * 10
  batch := 0
  rng := rng

/-- `IsingSim.get_random_pt` (lines 85-91): if the cursor has reached the end of
the batch (`self.irand >= self.nrand`), reset it to 0 and draw a fresh batch
(modelled by advancing the batch counter into the oracle); then serve
`rand_pts[irand]` and advance the cursor. -/
def get_random_pt {L : ℕ} (s : Sim L) : Pt L × Sim L :=
  let s1 := if s.nrand ≤ s.irand then { s with irand := 0, batch := s.batch + 1 } else s
  (s1.rng s1.batch s1.irand, { s1 with irand := s1.irand + 1 })

/-- Writing one lattice cell: `self.lattice[pt] = v`. -/
def setSpin {L : ℕ} (lat : Fin L → Fin L → ℤ) (p : Pt L) (v : ℤ) :
    Fin L → Fin L → ℤ :=
  fun x y => if x = p.1 ∧ y = p.2 then v else lat x y

/-- `IsingSim.get_delta` (lines 75-83).  The four neighbor offsets are
`dirs = [(1,0), (-1,0), (0,1), (0,-1)]` (lines 29-32).  The source computes
`nn = pt + dirs`, replaces any coordinate equal to `L` by `0`
(`nn[nn == L] = 0`), and then indexes the numpy array, where an index of `-1`
wraps to `L - 1`.  Net effect: both row and column are taken mod `L`, which is
exactly `Fin L` addition/subtraction; the byte-level index pipeline is modelled
separately by `get_delta_np` and proved equal below.  The function only writes
the local array `nn`, so it is a pure function of the lattice. -/
def get_delta {L : ℕ} [NeZero L] (lat : Fin L → Fin L → ℤ) (p : Pt L) : ℤ :=
  2 * lat p.1 p.2 *
    (lat (p.1 + 1) p.2 + lat (p.1 - 1) p.2 + lat p.1 (p.2 + 1) + lat p.1 (p.2 - 1))

/-- The acceptance test of `IsingSim.step`, lines 59-65: if `de <= dem_energy`,
flip the spin, count the move, move `de` from the demon to the system and update
the magnetization by twice the new spin; otherwise leave the state untouched. -/
def acceptPhase {L : ℕ} [NeZero L] (s : Sim L) (pt : Pt L) : Sim L :=
  if get_delta s.lattice pt ≤ s.dem_energy then
    { s with
      lattice := setSpin s.lattice pt (-(s.lattice pt.1 pt.2))
      accepted_moves := s.accepted_moves + 1
      sys_energy := s.sys_energy + get_delta s.lattice pt
      dem_energy := s.dem_energy - get_delta s.lattice pt
      magnetization := s.magnetization + 2 * (-(s.lattice pt.1 pt.2)) }
  else s

/-- The accumulator updates of `IsingSim.step`, lines 66-69, executed after every
candidate whether or not it was accepted. -/
def accumulate {L : ℕ} (s : Sim L) : Sim L :=
  { s with
    sys_energy_acc := s.sys_energy_acc + s.sys_energy
    dem_energy_acc := s.dem_energy_acc + s.dem_energy
    m_acc := s.m_acc + s.magnetization
    m2_acc := s.m2_acc + s.magnetization * s.magnetization }

/-- One candidate move of `IsingSim.step` (loop body, lines 56-69): draw a point,
run the acceptance test, then update the accumulators. -/
def candidate {L : ℕ} [NeZero L] (s : Sim L) : Sim L :=
  let r := get_random_pt s
  accumulate (acceptPhase r.2 r.1)

/-- The `for i in range(self.N)` loop of `IsingSim.step` (line 56), `n` candidate
moves in order. -/
def sweep (L : ℕ) [NeZero L] : ℕ → Sim L → Sim L
  | 0, s => s
  | n + 1, s => sweep L n (candidate s)

/-- `IsingSim.step` (lines 55-73): one sweep of `N = L * L` candidates, then
`mcs += 1`, then the temperature update.  The argument of `np.log` on lines
71-73 is `1 + 4 / (self.dem_energy_acc / self.mcs * self.N)` — by Python
operator precedence this is `(acc / mcs) * N`, not `acc / (mcs * N)`. -/
def step {L : ℕ} [NeZero L] (s : Sim L) : Sim L :=
  let s1 := sweep L (L * L) s
  let s2 := { s1 with mcs := s1.mcs + 1 }
  { s2 with
    temp_arg :=
      1 + 4 / ((s2.dem_energy_acc : ℚ) / (s2.mcs : ℚ) * ((L * L : ℕ) : ℚ)) }

/-- Modelled from the spec: section 4.2 writes the temperature formula as
`4.0 / ln(1 + 4 / ((demon_energy_accumulator / sweep_count / N)))`, i.e. the
log argument divides by `N` where the code multiplies.  This definition follows
the spec's words and exists only to be compared with the code's expression. -/
def temp_arg_spec (acc mcs N : ℚ) : ℚ := 1 + 4 / (acc / mcs / N)

/-- One trial of `IsingSim.init` (loop body, lines 44-52): draw a point; if the
flip would raise the energy (`de > 0`), flip and update the local `energy` and
`mag` variables. -/
def initBody {L : ℕ} [NeZero L] (e m : ℤ) (s : Sim L) : ℤ × ℤ × Sim L :=
  let r := get_random_pt s
  let de := get_delta r.2.lattice r.1
  if 0 < de then
    (e + de, m + 2 * (-(r.2.lattice r.1.1 r.1.2)),
      { r.2 with lattice := setSpin r.2.lattice r.1 (-(r.2.lattice r.1.1 r.1.2)) })
  else (e, m, r.2)

/-- The `while energy < self.target_energy and tries < max_tries` loop of
`IsingSim.init` (lines 44-52), with the remaining trial budget as fuel.  Returns
the final `energy`, the final (unused) `mag`, the number of trials performed,
and the final state. -/
def initLoop (L : ℕ) [NeZero L] : ℕ → ℤ → ℤ → Sim L → ℤ × ℤ × ℕ × Sim L
  | 0, e, m, s => (e, m, 0, s)
  | fuel + 1, e, m, s =>
    if e < s.target_energy then
      let b := initBody e m s
      let r := initLoop L fuel b.1 b.2.1 b.2.2
      (r.1, r.2.1, r.2.2.1 + 1, r.2.2.2)
    else (e, m, 0, s)

/-- `IsingSim.init` (lines 39-53): local `energy = -N`, `mag = N`,
`max_tries = 10 * N`; run the trial loop; store only the final energy
(`self.sys_energy = energy`, line 53 — the local `mag` is discarded). -/
def init {L : ℕ} [NeZero L] (s : Sim L) : Sim L :=
  let r := initLoop L (10 * (L * L)) (-(L * L : ℤ)) (L * L : ℤ) s
  { r.2.2.2 with sys_energy := r.1 }

/-- Constructing `IsingSim(L, energy)`: `__init__` ends by calling `self.init()`
(line 37). -/
def new (L : ℕ) [NeZero L] (t : ℤ) (rng : ℕ → ℕ → Pt L) : Sim L := init (mkSim L t rng)

/-- The sum of all lattice spin values (the spec's definition of magnetization). -/
def latticeSum {L : ℕ} (lat : Fin L → Fin L → ℤ) : ℤ :=
  ∑ x : Fin L, ∑ y : Fin L, lat x y

/-- Every cell of the lattice holds `+1` or `-1`. -/
def IsSpin {L : ℕ} (lat : Fin L → Fin L → ℤ) : Prop :=
  ∀ x y, lat x y = 1 ∨ lat x y = -1

/-! ### Concrete instances used for counterexamples and witnesses -/

/-- A random stream that always yields the origin (lattice 2×2). -/
def rngZ2 : ℕ → ℕ → Pt 2 := fun _ _ => (0, 0)

/-- A random stream on the 2×2 lattice whose first two draws are (0,0) and
(1,1), then (0,0) forever. -/
def rngA : ℕ → ℕ → Pt 2 := fun _ i => if i = 0 then (0, 0) else if i = 1 then (1, 1) else (0, 0)

/-- The only possible random stream on the 1×1 lattice. -/
def rngZ1 : ℕ → ℕ → Pt 1 := fun _ _ => (0, 0)

/-- A 3×3 spin lattice, all up except site (2,0). -/
def lat3rej : Fin 3 → Fin 3 → ℤ := fun x y => if x = 2 ∧ y = 0 then -1 else 1

/-- A 3×3 engine state with zero demon energy whose candidate (0,0) has `de = 4`. -/
def s3rej : Sim 3 := { mkSim 3 0 (fun _ _ => (0, 0)) with lattice := lat3rej }

/-- A 3×3 spin lattice, all up except sites (0,0) and (2,0). -/
def lat3acc : Fin 3 → Fin 3 → ℤ :=
  fun x y => if (x = 0 ∧ y = 0) ∨ (x = 2 ∧ y = 0) then -1 else 1

/-- A 3×3 engine state with zero demon energy whose candidate (0,0) has `de = -4`. -/
def s3acc : Sim 3 := { mkSim 3 0 (fun _ _ => (0, 0)) with lattice := lat3acc }

/-- The origin of the 3×3 lattice. -/
def p00 : Pt 3 := (0, 0)

/-- A supplier state whose cursor sits exactly at the end of the batch. -/
def sW : Sim 2 := { mkSim 2 0 rngZ2 with irand := 10240 }

/-! ### Lemmas about `get_random_pt` -/

/-- Closed form of the supplier state transition. -/
lemma get_random_pt_snd {L : ℕ} (s : Sim L) :
    (get_random_pt s).2 =
      if s.nrand ≤ s.irand then { s with irand := 1, batch := s.batch + 1 }
      else { s with irand := s.irand + 1 } := by
  simp only [get_random_pt]
  split <;> rfl

/-- Closed form of the point served by the supplier. -/
lemma get_random_pt_fst {L : ℕ} (s : Sim L) :
    (get_random_pt s).1 =
      if s.nrand ≤ s.irand then s.rng (s.batch + 1) 0 else s.rng s.batch s.irand := by
  simp only [get_random_pt]
  split <;> rfl

@[simp] lemma grp_lattice {L : ℕ} (s : Sim L) : (get_random_pt s).2.lattice = s.lattice := by
  rw [get_random_pt_snd]; split <;> rfl

@[simp] lemma grp_sys {L : ℕ} (s : Sim L) : (get_random_pt s).2.sys_energy = s.sys_energy := by
  rw [get_random_pt_snd]; split <;> rfl

@[simp] lemma grp_dem {L : ℕ} (s : Sim L) : (get_random_pt s).2.dem_energy = s.dem_energy := by
  rw [get_random_pt_snd]; split <;> rfl

@[simp] lemma grp_mag {L : ℕ} (s : Sim L) : (get_random_pt s).2.magnetization = s.magnetization := by
  rw [get_random_pt_snd]; split <;> rfl

@[simp] lemma grp_target {L : ℕ} (s : Sim L) : (get_random_pt s).2.target_energy = s.target_energy := by
  rw [get_random_pt_snd]; split <;> rfl

@[simp] lemma grp_mcs {L : ℕ} (s : Sim L) : (get_random_pt s).2.mcs = s.mcs := by
  rw [get_random_pt_snd]; split <;> rfl

@[simp] lemma grp_nrand {L : ℕ} (s : Sim L) : (get_random_pt s).2.nrand = s.nrand := by
  rw [get_random_pt_snd]; split <;> rfl

@[simp] lemma grp_sys_acc {L : ℕ} (s : Sim L) : (get_random_pt s).2.sys_energy_acc = s.sys_energy_acc := by
  rw [get_random_pt_snd]; split <;> rfl

@[simp] lemma grp_dem_acc {L : ℕ} (s : Sim L) : (get_random_pt s).2.dem_energy_acc = s.dem_energy_acc := by
  rw [get_random_pt_snd]; split <;> rfl

@[simp] lemma grp_m_acc {L : ℕ} (s : Sim L) : (get_random_pt s).2.m_acc = s.m_acc := by
  rw [get_random_pt_snd]; split <;> rfl

@[simp] lemma grp_m2_acc {L : ℕ} (s : Sim L) : (get_random_pt s).2.m2_acc = s.m2_acc := by
  rw [get_random_pt_snd]; split <;> rfl

@[simp] lemma grp_accepted {L : ℕ} (s : Sim L) : (get_random_pt s).2.accepted_moves = s.accepted_moves := by
  rw [get_random_pt_snd]; split <;> rfl

@[simp] lemma grp_temp {L : ℕ} (s : Sim L) : (get_random_pt s).2.temp_arg = s.temp_arg := by
  rw [get_random_pt_snd]; split <;> rfl

/-! ### Lemmas about `accumulate` and `acceptPhase` -/

@[simp] lemma accumulate_lattice {L : ℕ} (s : Sim L) : (accumulate s).lattice = s.lattice := rfl
@[simp] lemma accumulate_sys {L : ℕ} (s : Sim L) : (accumulate s).sys_energy = s.sys_energy := rfl
@[simp] lemma accumulate_dem {L : ℕ} (s : Sim L) : (accumulate s).dem_energy = s.dem_energy := rfl
@[simp] lemma accumulate_mag {L : ℕ} (s : Sim L) : (accumulate s).magnetization = s.magnetization := rfl
@[simp] lemma accumulate_target {L : ℕ} (s : Sim L) : (accumulate s).target_energy = s.target_energy := rfl
@[simp] lemma accumulate_mcs {L : ℕ} (s : Sim L) : (accumulate s).mcs = s.mcs := rfl
@[simp] lemma accumulate_nrand {L : ℕ} (s : Sim L) : (accumulate s).nrand = s.nrand := rfl

@[simp] lemma acceptPhase_mcs {L : ℕ} [NeZero L] (s : Sim L) (pt : Pt L) :
    (acceptPhase s pt).mcs = s.mcs := by
  unfold acceptPhase; split <;> rfl

@[simp] lemma acceptPhase_target {L : ℕ} [NeZero L] (s : Sim L) (pt : Pt L) :
    (acceptPhase s pt).target_energy = s.target_energy := by
  unfold acceptPhase; split <;> rfl

@[simp] lemma acceptPhase_nrand {L : ℕ} [NeZero L] (s : Sim L) (pt : Pt L) :
    (acceptPhase s pt).nrand = s.nrand := by
  unfold acceptPhase; split <;> rfl

@[simp] lemma acceptPhase_sys_acc {L : ℕ} [NeZero L] (s : Sim L) (pt : Pt L) :
    (acceptPhase s pt).sys_energy_acc = s.sys_energy_acc := by
  unfold acceptPhase; split <;> rfl

@[simp] lemma acceptPhase_dem_acc {L : ℕ} [NeZero L] (s : Sim L) (pt : Pt L) :
    (acceptPhase s pt).dem_energy_acc = s.dem_energy_acc := by
  unfold acceptPhase; split <;> rfl

/-- The acceptance test conserves the sum of system and demon energy. -/
lemma acceptPhase_sys_dem {L : ℕ} [NeZero L] (s : Sim L) (pt : Pt L) :
    (acceptPhase s pt).sys_energy + (acceptPhase s pt).dem_energy =
      s.sys_energy + s.dem_energy := by
  unfold acceptPhase; split <;> dsimp <;> ring

/-- The acceptance test keeps the demon energy nonnegative. -/
lemma acceptPhase_dem_nonneg {L : ℕ} [NeZero L] (s : Sim L) (pt : Pt L)
    (h : 0 ≤ s.dem_energy) : 0 ≤ (acceptPhase s pt).dem_energy := by
  unfold acceptPhase
  split
  · dsimp; omega
  · exact h

/-! ### Conservation and nonnegativity through `candidate`, `sweep`, `step` -/

lemma candidate_sys_dem {L : ℕ} [NeZero L] (s : Sim L) :
    (candidate s).sys_energy + (candidate s).dem_energy =
      s.sys_energy + s.dem_energy := by
  unfold candidate
  rw [accumulate_sys, accumulate_dem, acceptPhase_sys_dem, grp_sys, grp_dem]

lemma candidate_dem_nonneg {L : ℕ} [NeZero L] (s : Sim L) (h : 0 ≤ s.dem_energy) :
    0 ≤ (candidate s).dem_energy := by
  unfold candidate
  rw [accumulate_dem]
  exact acceptPhase_dem_nonneg _ _ (by rw [grp_dem]; exact h)

lemma sweep_sys_dem {L : ℕ} [NeZero L] (n : ℕ) (s : Sim L) :
    (sweep L n s).sys_energy + (sweep L n s).dem_energy =
      s.sys_energy + s.dem_energy := by
  induction n generalizing s with
  | zero => rfl
  | succ n ih => rw [sweep, ih, candidate_sys_dem]

lemma sweep_dem_nonneg {L : ℕ} [NeZero L] (n : ℕ) (s : Sim L) (h : 0 ≤ s.dem_energy) :
    0 ≤ (sweep L n s).dem_energy := by
  induction n generalizing s with
  | zero => exact h
  | succ n ih => rw [sweep]; exact ih _ (candidate_dem_nonneg s h)

@[simp] lemma step_sys {L : ℕ} [NeZero L] (s : Sim L) :
    (step s).sys_energy = (sweep L (L * L) s).sys_energy := rfl

@[simp] lemma step_dem {L : ℕ} [NeZero L] (s : Sim L) :
    (step s).dem_energy = (sweep L (L * L) s).dem_energy := rfl

@[simp] lemma step_lattice {L : ℕ} [NeZero L] (s : Sim L) :
    (step s).lattice = (sweep L (L * L) s).lattice := rfl

@[simp] lemma step_mag {L : ℕ} [NeZero L] (s : Sim L) :
    (step s).magnetization = (sweep L (L * L) s).magnetization := rfl

lemma step_dem_nonneg {L : ℕ} [NeZero L] (s : Sim L) (h : 0 ≤ s.dem_energy) :
    0 ≤ (step s).dem_energy := by
  rw [step_dem]; exact sweep_dem_nonneg _ s h

/-! ### The demon energy through `init` -/

lemma initBody_dem {L : ℕ} [NeZero L] (e m : ℤ) (s : Sim L) :
    (initBody e m s).2.2.dem_energy = s.dem_energy := by
  unfold initBody
  dsimp only
  split <;> simp

lemma initLoop_dem {L : ℕ} [NeZero L] (fuel : ℕ) (e m : ℤ) (s : Sim L) :
    (initLoop L fuel e m s).2.2.2.dem_energy = s.dem_energy := by
  induction fuel generalizing e m s with
  | zero => rfl
  | succ fuel ih =>
    rw [initLoop]
    split
    · dsimp; rw [ih, initBody_dem]
    · rfl

lemma new_dem {L : ℕ} [NeZero L] (t : ℤ) (rng : ℕ → ℕ → Pt L) :
    (new L t rng).dem_energy = 0 := by
  unfold new init
  dsimp
  rw [initLoop_dem]
  rfl

/-! ### The byte-level index pipeline of `get_delta`

`get_delta` (lines 75-83) computes raw neighbor coordinates `nn = pt + dirs`
over the integers, replaces any coordinate equal to `L` by `0`
(`nn[nn == L] = 0`, line 80), and then indexes the numpy array, which accepts
an index `i` with `-L ≤ i < L` and wraps a negative index to `i + L`; anything
else raises `IndexError`, modelled by `none`. -/

/-- numpy integer array indexing along one axis of length `L`. -/
def npIdx (L : ℕ) (i : ℤ) : Option (Fin L) :=
  if h : 0 ≤ i ∧ i < (L : ℤ) then some ⟨i.toNat, by omega⟩
  else if h2 : -(L : ℤ) ≤ i ∧ i < 0 then some ⟨(i + L).toNat, by omega⟩
  else none

/-- The `nn[nn == L] = 0` step (line 80) on one coordinate pair. -/
def fixWrap (L : ℕ) (c : ℤ × ℤ) : ℤ × ℤ :=
  ((if c.1 = (L : ℤ) then 0 else c.1), (if c.2 = (L : ℤ) then 0 else c.2))

/-- Reading `lattice[c]` with numpy index semantics on both axes. -/
def npLookup {L : ℕ} (lat : Fin L → Fin L → ℤ) (c : ℤ × ℤ) : Option ℤ :=
  match npIdx L c.1, npIdx L c.2 with
  | some x, some y => some (lat x y)
  | _, _ => none

/-- `IsingSim.get_delta` with the source's index pipeline left explicit: the
four raw neighbor coordinates `pt + dirs` (in `dirs` order `(1,0)`, `(-1,0)`,
`(0,1)`, `(0,-1)`), each sent through `nn[nn == L] = 0` and then numpy
indexing; `none` if any lookup would raise `IndexError`. -/
def get_delta_np {L : ℕ} (lat : Fin L → Fin L → ℤ) (p : Pt L) : Option ℤ :=
  match npLookup lat (fixWrap L ((p.1 : ℕ) + 1, (p.2 : ℕ))),
        npLookup lat (fixWrap L ((p.1 : ℕ) - 1, (p.2 : ℕ))),
        npLookup lat (fixWrap L ((p.1 : ℕ), (p.2 : ℕ) + 1)),
        npLookup lat (fixWrap L ((p.1 : ℕ), (p.2 : ℕ) - 1)) with
  | some a, some b, some c, some d => some (2 * lat p.1 p.2 * (a + b + c + d))
  | _, _, _, _ => none

/-- Wraparound arithmetic on `Fin L`: the value of `x + 1`. -/
lemma fin_val_add_one {L : ℕ} [NeZero L] (x : Fin L) :
    ((x + 1 : Fin L) : ℕ) = if (x : ℕ) + 1 = L then 0 else (x : ℕ) + 1 := by
  rw [Fin.val_add, Fin.val_one']
  rcases Nat.lt_or_ge 1 L with h1 | h1
  · rw [Nat.mod_eq_of_lt h1]
    rcases Nat.lt_or_ge ((x : ℕ) + 1) L with h2 | h2
    · rw [Nat.mod_eq_of_lt h2, if_neg (by omega)]
    · have hx : (x : ℕ) + 1 = L := by have := x.isLt; omega
      rw [if_pos hx, hx, Nat.mod_self]
  · have hL1 : L = 1 := by have := Fin.pos x; omega
    subst hL1
    have hx : (x : ℕ) = 0 := by have := x.isLt; omega
    rw [hx]
    norm_num

/-- Wraparound arithmetic on `Fin L`: the value of `x - 1`. -/
lemma fin_val_sub_one {L : ℕ} [NeZero L] (x : Fin L) :
    ((x - 1 : Fin L) : ℕ) = if (x : ℕ) = 0 then L - 1 else (x : ℕ) - 1 := by
  rw [Fin.sub_def]
  rcases Nat.lt_or_ge 1 L with h1 | h1
  · rw [Fin.val_one']
    rw [Nat.mod_eq_of_lt h1]
    rcases eq_or_ne (x : ℕ) 0 with hx | hx
    · rw [hx, if_pos rfl]
      dsimp
      rw [Nat.mod_eq_of_lt (by omega)]
    · rw [if_neg hx]
      dsimp
      have hlt := x.isLt
      have hswap : L - 1 + (x : ℕ) = ((x : ℕ) - 1) + L := by omega
      rw [hswap, Nat.add_mod_right, Nat.mod_eq_of_lt (by omega)]
  · have hL1 : L = 1 := by have := Fin.pos x; omega
    subst hL1
    have hx : (x : ℕ) = 0 := by have := x.isLt; omega
    rw [if_pos hx]
    dsimp
    omega

/-- A coordinate already in `[0, L)` passes `fixWrap` and `npIdx` unchanged. -/
lemma npIdx_coe {L : ℕ} (x : Fin L) : npIdx L ((x : ℕ) : ℤ) = some x := by
  unfold npIdx
  rw [dif_pos ⟨by positivity, by exact_mod_cast x.isLt⟩]
  congr 1

/-- The raw coordinate `x + 1`, after the `nn[nn == L] = 0` fix, resolves under
numpy indexing to the mod-`L` neighbor `x + 1 : Fin L`. -/
lemma npIdx_fix_add_one {L : ℕ} [NeZero L] (x : Fin L) :
    npIdx L (if ((x : ℕ) : ℤ) + 1 = (L : ℤ) then 0 else ((x : ℕ) : ℤ) + 1) =
      some (x + 1) := by
  rcases eq_or_ne ((x : ℕ) + 1) L with hx | hx
  · rw [if_pos (by exact_mod_cast congrArg (Nat.cast : ℕ → ℤ) hx)]
    unfold npIdx
    rw [dif_pos ⟨le_refl 0, by exact_mod_cast Fin.pos x⟩]
    congr 1
    ext
    rw [fin_val_add_one, if_pos hx]
    simp
  · have hlt : (x : ℕ) + 1 < L := by have := x.isLt; omega
    rw [if_neg (by exact_mod_cast fun h => hx (by exact_mod_cast h))]
    unfold npIdx
    rw [dif_pos ⟨by positivity, by exact_mod_cast hlt⟩]
    congr 1
    ext
    rw [fin_val_add_one, if_neg hx]
    simp

/-- The raw coordinate `x - 1` is never equal to `L` (so `fixWrap` leaves it
alone) and resolves under numpy indexing — via the negative-index wrap when
`x = 0` — to the mod-`L` neighbor `x - 1 : Fin L`. -/
lemma npIdx_sub_one {L : ℕ} [NeZero L] (x : Fin L) :
    npIdx L (((x : ℕ) : ℤ) - 1) = some (x - 1) := by
  rcases eq_or_ne (x : ℕ) 0 with hx | hx
  · unfold npIdx
    rw [dif_neg (by omega), dif_pos ⟨by have := Fin.pos x; omega, by omega⟩]
    congr 1
    ext
    dsimp only
    rw [fin_val_sub_one, if_pos hx]
    omega
  · unfold npIdx
    rw [dif_pos ⟨by omega, by have := x.isLt; omega⟩]
    congr 1
    ext
    dsimp only
    rw [fin_val_sub_one, if_neg hx]
    omega

/-- The raw coordinate `x - 1` never triggers the `nn[nn == L] = 0` fix. -/
lemma sub_one_ne_L {L : ℕ} (x : Fin L) : ((x : ℕ) : ℤ) - 1 ≠ (L : ℤ) := by
  have := x.isLt
  omega

/-- The in-range coordinate `x` never triggers the `nn[nn == L] = 0` fix. -/
lemma coe_ne_L {L : ℕ} (x : Fin L) : ((x : ℕ) : ℤ) ≠ (L : ℤ) := by
  have := x.isLt
  omega

/-- The index pipeline of the source computes exactly the total function
`get_delta` (all four lookups succeed, with mod-`L` wraparound). -/
lemma get_delta_np_eq {L : ℕ} [NeZero L] (lat : Fin L → Fin L → ℤ) (p : Pt L) :
    get_delta_np lat p = some (get_delta lat p) := by
  unfold get_delta_np npLookup fixWrap
  dsimp only
  rw [if_neg (coe_ne_L p.2), if_neg (coe_ne_L p.1), if_neg (sub_one_ne_L p.1),
    if_neg (sub_one_ne_L p.2)]
  rw [npIdx_fix_add_one p.1, npIdx_sub_one p.1, npIdx_coe p.1, npIdx_coe p.2,
    npIdx_sub_one p.2]
  have h4 : npIdx L (if ((p.2 : ℕ) : ℤ) + 1 = (L : ℤ) then 0 else ((p.2 : ℕ) : ℤ) + 1) =
      some (p.2 + 1) := npIdx_fix_add_one p.2
  rw [h4]
  rfl

/-- The `(1, 0)` direction lookup succeeds with mod-`L` wraparound. -/
lemma npLookup_row_add {L : ℕ} [NeZero L] (lat : Fin L → Fin L → ℤ) (p : Pt L) :
    npLookup lat (fixWrap L (((p.1 : ℕ) : ℤ) + 1, ((p.2 : ℕ) : ℤ))) =
      some (lat (p.1 + 1) p.2) := by
  unfold npLookup fixWrap
  dsimp only
  rw [if_neg (coe_ne_L p.2), npIdx_fix_add_one p.1, npIdx_coe p.2]

/-- The `(-1, 0)` direction lookup succeeds with mod-`L` wraparound. -/
lemma npLookup_row_sub {L : ℕ} [NeZero L] (lat : Fin L → Fin L → ℤ) (p : Pt L) :
    npLookup lat (fixWrap L (((p.1 : ℕ) : ℤ) - 1, ((p.2 : ℕ) : ℤ))) =
      some (lat (p.1 - 1) p.2) := by
  unfold npLookup fixWrap
  dsimp only
  rw [if_neg (coe_ne_L p.2), if_neg (sub_one_ne_L p.1), npIdx_sub_one p.1, npIdx_coe p.2]

/-- The `(0, 1)` direction lookup succeeds with mod-`L` wraparound. -/
lemma npLookup_col_add {L : ℕ} [NeZero L] (lat : Fin L → Fin L → ℤ) (p : Pt L) :
    npLookup lat (fixWrap L (((p.1 : ℕ) : ℤ), ((p.2 : ℕ) : ℤ) + 1)) =
      some (lat p.1 (p.2 + 1)) := by
  unfold npLookup fixWrap
  dsimp only
  rw [if_neg (coe_ne_L p.1), npIdx_fix_add_one p.2, npIdx_coe p.1]

/-- The `(0, -1)` direction lookup succeeds with mod-`L` wraparound. -/
lemma npLookup_col_sub {L : ℕ} [NeZero L] (lat : Fin L → Fin L → ℤ) (p : Pt L) :
    npLookup lat (fixWrap L (((p.1 : ℕ) : ℤ), ((p.2 : ℕ) : ℤ) - 1)) =
      some (lat p.1 (p.2 - 1)) := by
  unfold npLookup fixWrap
  dsimp only
  rw [if_neg (coe_ne_L p.1), if_neg (sub_one_ne_L p.2), npIdx_sub_one p.2, npIdx_coe p.1]

/-! ### Claim theorems -/

/-- C3: in `step()`, a candidate move is accepted iff `de <= demon_energy` at the
moment of the check; an accepted move flips the spin at the drawn point, changes
`demon_energy` by exactly `-de` and `system_energy` by exactly `+de` (and counts
the move), and a rejected move leaves the whole state unchanged.  In particular,
with `demon_energy = 0` a candidate with `de = 4` is rejected, and a candidate
with `de = -4` is accepted leaving `demon_energy = 4`. -/
theorem C3_acceptance_rule :
    (∀ (L : ℕ) [NeZero L] (s : Sim L) (pt : Pt L),
      (get_delta s.lattice pt ≤ s.dem_energy →
        (acceptPhase s pt).lattice pt.1 pt.2 = -(s.lattice pt.1 pt.2) ∧
        (acceptPhase s pt).dem_energy = s.dem_energy - get_delta s.lattice pt ∧
        (acceptPhase s pt).sys_energy = s.sys_energy + get_delta s.lattice pt ∧
        (acceptPhase s pt).accepted_moves = s.accepted_moves + 1 ∧
        (acceptPhase s pt).magnetization = s.magnetization + 2 * (-(s.lattice pt.1 pt.2))) ∧
      (¬get_delta s.lattice pt ≤ s.dem_energy → acceptPhase s pt = s)) ∧
    (s3rej.dem_energy = 0 ∧ get_delta s3rej.lattice p00 = 4 ∧
      acceptPhase s3rej p00 = s3rej) ∧
    (s3acc.dem_energy = 0 ∧ get_delta s3acc.lattice p00 = -4 ∧
      (acceptPhase s3acc p00).dem_energy = 4) := by
  refine ⟨fun L _ s pt => ⟨fun h => ?_, fun h => ?_⟩, ⟨rfl, by decide, ?_⟩, ⟨rfl, by decide, by decide⟩⟩
  · unfold acceptPhase
    rw [if_pos h]
    refine ⟨?_, rfl, rfl, rfl, rfl⟩
    simp [setSpin]
  · unfold acceptPhase
    rw [if_neg h]
  · unfold acceptPhase
    rw [if_neg (by decide)]

/-- Witness for C3: the acceptance branch applied to the concrete state `s3acc`
at the origin. -/
theorem C3_acceptance_rule_witness :
    (acceptPhase s3acc p00).dem_energy = s3acc.dem_energy - get_delta s3acc.lattice p00 :=
  ((C3_acceptance_rule.1 3 s3acc p00).1 (by decide)).2.1

/-! ### The physical bond energy and the range of `sys_energy` (C5)

The tracked `sys_energy` is an affine shift of the physical nearest-neighbor
bond energy: `init` starts its local energy at `-N` while the all-up lattice
has bond energy `-2N`, and every accepted flip adds the same `de` to both.  So
`sys_energy = bondEnergy + N` throughout (for `L ≥ 2`), giving the range
`[-N, 3N]` rather than the claimed `[-2N, 2N]`. -/

/-- The nearest-neighbor bond energy `-Σ_q s_q (s_{q+(1,0)} + s_{q+(0,1)})`,
each of the `2N` torus bonds counted once (right and down bond per site). -/
def bondEnergy {L : ℕ} [NeZero L] (lat : Fin L → Fin L → ℤ) : ℤ :=
  -∑ q : Fin L × Fin L, lat q.1 q.2 * (lat (q.1 + 1) q.2 + lat q.1 (q.2 + 1))

@[simp] lemma setSpin_same {L : ℕ} (lat : Fin L → Fin L → ℤ) (p : Pt L) (v : ℤ) :
    setSpin lat p v p.1 p.2 = v := by
  simp [setSpin]

lemma setSpin_ne {L : ℕ} (lat : Fin L → Fin L → ℤ) (p : Pt L) (v : ℤ) {x y : Fin L}
    (h : ¬(x = p.1 ∧ y = p.2)) : setSpin lat p v x y = lat x y := by
  simp only [setSpin, if_neg h]

lemma fin_one_ne_zero {L : ℕ} [NeZero L] (hL : 2 ≤ L) : (1 : Fin L) ≠ 0 := by
  intro h
  have h2 := congrArg Fin.val h
  rw [Fin.val_one', Fin.val_zero, Nat.mod_eq_of_lt (by omega)] at h2
  omega

lemma fin_add_one_ne {L : ℕ} [NeZero L] (hL : 2 ≤ L) (x : Fin L) : x + 1 ≠ x :=
  fun h => fin_one_ne_zero hL (add_right_eq_self.mp h)

lemma fin_sub_one_ne {L : ℕ} [NeZero L] (hL : 2 ≤ L) (x : Fin L) : x - 1 ≠ x :=
  fun h => fin_one_ne_zero hL (sub_eq_self.mp h)

/-- Flipping one spin changes the bond energy by exactly `get_delta` (lattices
of side `L ≥ 2`; on the 1×1 lattice the four self-neighbors break this). -/
lemma bondEnergy_flip {L : ℕ} [NeZero L] (hL : 2 ≤ L) (lat : Fin L → Fin L → ℤ)
    (p : Pt L) :
    bondEnergy (setSpin lat p (-(lat p.1 p.2))) = bondEnergy lat + get_delta lat p := by
  classical
  set v := -(lat p.1 p.2) with hv
  have hp1 : (p.1 - 1, p.2) ≠ p := fun h => fin_sub_one_ne hL p.1 (congrArg Prod.fst h)
  have hp2 : (p.1, p.2 - 1) ≠ p := fun h => fin_sub_one_ne hL p.2 (congrArg Prod.snd h)
  have hp12 : (p.1 - 1, p.2) ≠ (p.1, p.2 - 1) := by
    intro h
    have h1 : p.1 - 1 = p.1 := congrArg Prod.fst h
    exact fin_sub_one_ne hL p.1 h1
  have e1 : setSpin lat p v p.1 p.2 = v := setSpin_same lat p v
  have e2 : setSpin lat p v (p.1 + 1) p.2 = lat (p.1 + 1) p.2 :=
    setSpin_ne lat p v (fun h => fin_add_one_ne hL p.1 h.1)
  have e3 : setSpin lat p v p.1 (p.2 + 1) = lat p.1 (p.2 + 1) :=
    setSpin_ne lat p v (fun h => fin_add_one_ne hL p.2 h.2)
  have e4 : setSpin lat p v (p.1 - 1) p.2 = lat (p.1 - 1) p.2 :=
    setSpin_ne lat p v (fun h => fin_sub_one_ne hL p.1 h.1)
  have e5 : setSpin lat p v p.1 (p.2 - 1) = lat p.1 (p.2 - 1) :=
    setSpin_ne lat p v (fun h => fin_sub_one_ne hL p.2 h.2)
  have e6 : setSpin lat p v (p.1 - 1) (p.2 + 1) = lat (p.1 - 1) (p.2 + 1) :=
    setSpin_ne lat p v (fun h => fin_sub_one_ne hL p.1 h.1)
  have e7 : setSpin lat p v (p.1 + 1) (p.2 - 1) = lat (p.1 + 1) (p.2 - 1) :=
    setSpin_ne lat p v (fun h => fin_add_one_ne hL p.1 h.1)
  have hsub : ∀ q : Fin L × Fin L,
      q ∉ ({p, (p.1 - 1, p.2), (p.1, p.2 - 1)} : Finset (Fin L × Fin L)) →
      setSpin lat p v q.1 q.2 *
          (setSpin lat p v (q.1 + 1) q.2 + setSpin lat p v q.1 (q.2 + 1)) -
        lat q.1 q.2 * (lat (q.1 + 1) q.2 + lat q.1 (q.2 + 1)) = 0 := by
    intro q hq
    simp only [Finset.mem_insert, Finset.mem_singleton] at hq
    push_neg at hq
    obtain ⟨hq0, hq1, hq2⟩ := hq
    have n1 : ¬(q.1 = p.1 ∧ q.2 = p.2) := fun h => hq0 (Prod.ext_iff.mpr h)
    have n2 : ¬(q.1 + 1 = p.1 ∧ q.2 = p.2) :=
      fun h => hq1 (Prod.ext_iff.mpr ⟨eq_sub_of_add_eq h.1, h.2⟩)
    have n3 : ¬(q.1 = p.1 ∧ q.2 + 1 = p.2) :=
      fun h => hq2 (Prod.ext_iff.mpr ⟨h.1, eq_sub_of_add_eq h.2⟩)
    rw [setSpin_ne lat p v n1, setSpin_ne lat p v n2, setSpin_ne lat p v n3, sub_self]
  have hmem1 : p ∉ ({(p.1 - 1, p.2), (p.1, p.2 - 1)} : Finset (Fin L × Fin L)) := by
    simp only [Finset.mem_insert, Finset.mem_singleton]
    push_neg
    exact ⟨Ne.symm hp1, Ne.symm hp2⟩
  have hmem2 : (p.1 - 1, p.2) ∉ ({(p.1, p.2 - 1)} : Finset (Fin L × Fin L)) := by
    simp only [Finset.mem_singleton]
    exact hp12
  have hA : (∑ q : Fin L × Fin L,
      (setSpin lat p v q.1 q.2 *
          (setSpin lat p v (q.1 + 1) q.2 + setSpin lat p v q.1 (q.2 + 1)) -
        lat q.1 q.2 * (lat (q.1 + 1) q.2 + lat q.1 (q.2 + 1)))) = -get_delta lat p := by
    rw [← Finset.sum_subset
      (Finset.subset_univ ({p, (p.1 - 1, p.2), (p.1, p.2 - 1)} : Finset (Fin L × Fin L)))
      (fun q _ hq => hsub q hq)]
    rw [Finset.sum_insert hmem1, Finset.sum_insert hmem2, Finset.sum_singleton]
    dsimp only
    rw [sub_add_cancel p.1 1, sub_add_cancel p.2 1]
    rw [e2, e3, e4, e5, e6, e7, e1]
    unfold get_delta
    rw [hv]
    ring
  rw [Finset.sum_sub_distrib] at hA
  unfold bondEnergy
  linarith [hA]

/-- Per-site bounds on the bond-energy summands give `|bondEnergy| ≤ 2N`. -/
lemma bondEnergy_bounds {L : ℕ} [NeZero L] (lat : Fin L → Fin L → ℤ) (h : IsSpin lat) :
    -(2 * ((L * L : ℕ) : ℤ)) ≤ bondEnergy lat ∧
      bondEnergy lat ≤ 2 * ((L * L : ℕ) : ℤ) := by
  have hterm : ∀ q : Fin L × Fin L,
      -2 ≤ lat q.1 q.2 * (lat (q.1 + 1) q.2 + lat q.1 (q.2 + 1)) ∧
        lat q.1 q.2 * (lat (q.1 + 1) q.2 + lat q.1 (q.2 + 1)) ≤ 2 := by
    intro q
    rcases h q.1 q.2 with h1 | h1 <;> rcases h (q.1 + 1) q.2 with h2 | h2 <;>
      rcases h q.1 (q.2 + 1) with h3 | h3 <;> rw [h1, h2, h3] <;> norm_num
  have hcard : (Finset.univ : Finset (Fin L × Fin L)).card = L * L := by
    simp [Finset.card_univ]
  have hup : (∑ q : Fin L × Fin L,
      lat q.1 q.2 * (lat (q.1 + 1) q.2 + lat q.1 (q.2 + 1))) ≤ 2 * ((L * L : ℕ) : ℤ) := by
    have := Finset.sum_le_sum (fun q (_ : q ∈ Finset.univ) => (hterm q).2)
    rw [Finset.sum_const, hcard, nsmul_eq_mul] at this
    linarith
  have hlo : -(2 * ((L * L : ℕ) : ℤ)) ≤ ∑ q : Fin L × Fin L,
      lat q.1 q.2 * (lat (q.1 + 1) q.2 + lat q.1 (q.2 + 1)) := by
    have := Finset.sum_le_sum (fun q (_ : q ∈ Finset.univ) => (hterm q).1)
    rw [Finset.sum_const, hcard, nsmul_eq_mul] at this
    linarith
  unfold bondEnergy
  constructor <;> linarith

/-- The all-up lattice has bond energy `-2N`. -/
lemma bondEnergy_allUp (L : ℕ) [NeZero L] :
    bondEnergy ((fun _ _ => (1 : ℤ)) : Fin L → Fin L → ℤ) = -(2 * ((L * L : ℕ) : ℤ)) := by
  unfold bondEnergy
  simp only [one_mul]
  norm_num
  ring

/-- Flipping to the negated spin preserves the ±1 property. -/
lemma isSpin_setSpin_flip {L : ℕ} (lat : Fin L → Fin L → ℤ) (p : Pt L)
    (h : IsSpin lat) : IsSpin (setSpin lat p (-(lat p.1 p.2))) := by
  intro x y
  unfold setSpin
  split
  · rcases h p.1 p.2 with h1 | h1 <;> rw [h1] <;> norm_num
  · exact h x y

/-- One `init` trial preserves the coupling `energy = bondEnergy + N`. -/
lemma initBody_inv {L : ℕ} [NeZero L] (hL : 2 ≤ L) (e m : ℤ) (s : Sim L)
    (hs : IsSpin s.lattice) (he : e = bondEnergy s.lattice + ((L * L : ℕ) : ℤ)) :
    IsSpin (initBody e m s).2.2.lattice ∧
      (initBody e m s).1 = bondEnergy (initBody e m s).2.2.lattice + ((L * L : ℕ) : ℤ) := by
  unfold initBody
  dsimp only
  split
  · dsimp only
    rw [grp_lattice]
    refine ⟨isSpin_setSpin_flip s.lattice _ hs, ?_⟩
    rw [bondEnergy_flip hL s.lattice _]
    linarith
  · dsimp only
    rw [grp_lattice]
    exact ⟨hs, he⟩

/-- The whole `init` trial loop preserves the coupling `energy = bondEnergy + N`. -/
lemma initLoop_inv {L : ℕ} [NeZero L] (hL : 2 ≤ L) (fuel : ℕ) (e m : ℤ) (s : Sim L)
    (hs : IsSpin s.lattice) (he : e = bondEnergy s.lattice + ((L * L : ℕ) : ℤ)) :
    IsSpin (initLoop L fuel e m s).2.2.2.lattice ∧
      (initLoop L fuel e m s).1 =
        bondEnergy (initLoop L fuel e m s).2.2.2.lattice + ((L * L : ℕ) : ℤ) := by
  induction fuel generalizing e m s with
  | zero => exact ⟨hs, he⟩
  | succ fuel ih =>
    rw [initLoop]
    split
    · dsimp only
      obtain ⟨hs2, he2⟩ := initBody_inv hL e m s hs he
      exact ih _ _ _ hs2 he2
    · exact ⟨hs, he⟩

/-- After construction, `sys_energy = bondEnergy + N` and all spins are ±1. -/
lemma new_inv {L : ℕ} [NeZero L] (hL : 2 ≤ L) (t : ℤ) (rng : ℕ → ℕ → Pt L) :
    IsSpin (new L t rng).lattice ∧
      (new L t rng).sys_energy =
        bondEnergy (new L t rng).lattice + ((L * L : ℕ) : ℤ) := by
  unfold new init
  dsimp only
  refine initLoop_inv hL _ _ _ _ (fun x y => Or.inl rfl) ?_
  show -((L * L : ℕ) : ℤ) =
    bondEnergy ((fun _ _ => (1 : ℤ)) : Fin L → Fin L → ℤ) + ((L * L : ℕ) : ℤ)
  rw [bondEnergy_allUp]
  ring

/-- The acceptance test preserves the coupling `sys_energy = bondEnergy + N`. -/
lemma acceptPhase_inv {L : ℕ} [NeZero L] (hL : 2 ≤ L) (s : Sim L) (pt : Pt L)
    (hs : IsSpin s.lattice)
    (he : s.sys_energy = bondEnergy s.lattice + ((L * L : ℕ) : ℤ)) :
    IsSpin (acceptPhase s pt).lattice ∧
      (acceptPhase s pt).sys_energy =
        bondEnergy (acceptPhase s pt).lattice + ((L * L : ℕ) : ℤ) := by
  unfold acceptPhase
  split
  · dsimp only
    refine ⟨isSpin_setSpin_flip s.lattice pt hs, ?_⟩
    rw [bondEnergy_flip hL s.lattice pt]
    linarith
  · exact ⟨hs, he⟩

/-- One candidate move preserves the coupling `sys_energy = bondEnergy + N`. -/
lemma candidate_inv {L : ℕ} [NeZero L] (hL : 2 ≤ L) (s : Sim L)
    (hs : IsSpin s.lattice)
    (he : s.sys_energy = bondEnergy s.lattice + ((L * L : ℕ) : ℤ)) :
    IsSpin (candidate s).lattice ∧
      (candidate s).sys_energy =
        bondEnergy (candidate s).lattice + ((L * L : ℕ) : ℤ) := by
  unfold candidate
  dsimp only
  rw [accumulate_lattice, accumulate_sys]
  exact acceptPhase_inv hL _ _ (by rw [grp_lattice]; exact hs)
    (by rw [grp_lattice, grp_sys]; exact he)

/-- A sweep preserves the coupling `sys_energy = bondEnergy + N`. -/
lemma sweep_inv {L : ℕ} [NeZero L] (hL : 2 ≤ L) (n : ℕ) (s : Sim L)
    (hs : IsSpin s.lattice)
    (he : s.sys_energy = bondEnergy s.lattice + ((L * L : ℕ) : ℤ)) :
    IsSpin (sweep L n s).lattice ∧
      (sweep L n s).sys_energy =
        bondEnergy (sweep L n s).lattice + ((L * L : ℕ) : ℤ) := by
  induction n generalizing s with
  | zero => exact ⟨hs, he⟩
  | succ n ih =>
    rw [sweep]
    obtain ⟨hs2, he2⟩ := candidate_inv hL s hs he
    exact ih _ hs2 he2

/-- `step` preserves the coupling `sys_energy = bondEnergy + N`. -/
lemma step_inv {L : ℕ} [NeZero L] (hL : 2 ≤ L) (s : Sim L)
    (hs : IsSpin s.lattice)
    (he : s.sys_energy = bondEnergy s.lattice + ((L * L : ℕ) : ℤ)) :
    IsSpin (step s).lattice ∧
      (step s).sys_energy = bondEnergy (step s).lattice + ((L * L : ℕ) : ℤ) := by
  rw [step_lattice, step_sys]
  exact sweep_inv hL _ s hs he

/-- Counterexample to C5 as stated: constructing `IsingSim(2, 100)` with the
random stream `rngA` reaches the checkerboard lattice during `init` and leaves
`sys_energy = 12`, outside the claimed range `[-2N, 2N] = [-8, 8]` (the code
tracks the bond energy shifted by `+N`, because `init` starts its local energy
at `-N` while the all-up lattice has bond energy `-2N`). -/
theorem C5_range_counterexample :
    (new 2 100 rngA).sys_energy = 12 ∧
      ¬(new 2 100 rngA).sys_energy ≤ 2 * ((2 * 2 : ℕ) : ℤ) := by
  exact ⟨by decide, by decide⟩

/-- C5 amended: for `L ≥ 2`, after construction and after every `step()` the
tracked `sys_energy` stays within `[-N, 3N]` (it equals the physical bond
energy plus `N`, and the bond energy lies in `[-2N, 2N]`).  On the degenerate
1×1 lattice the tracked energy is not coupled to any bond energy and can leave
this range during `init`. -/
theorem C5_amended_range {L : ℕ} [NeZero L] (hL : 2 ≤ L) (t : ℤ)
    (rng : ℕ → ℕ → Pt L) (k : ℕ) :
    -((L * L : ℕ) : ℤ) ≤ (step^[k] (new L t rng)).sys_energy ∧
      (step^[k] (new L t rng)).sys_energy ≤ 3 * ((L * L : ℕ) : ℤ) := by
  have hinv : IsSpin (step^[k] (new L t rng)).lattice ∧
      (step^[k] (new L t rng)).sys_energy =
        bondEnergy (step^[k] (new L t rng)).lattice + ((L * L : ℕ) : ℤ) := by
    induction k with
    | zero => exact new_inv hL t rng
    | succ k ih =>
      rw [Function.iterate_succ_apply']
      exact step_inv hL _ ih.1 ih.2
  obtain ⟨hs, he⟩ := hinv
  obtain ⟨hlo, hup⟩ := bondEnergy_bounds _ hs
  constructor <;> linarith

/-- Witness for C5 (amended): the bounds at the concrete construction
`IsingSim(2, -4)` with zero steps. -/
theorem C5_amended_range_witness :
    -((2 * 2 : ℕ) : ℤ) ≤ (step^[0] (new 2 (-4) rngZ2)).sys_energy ∧
      (step^[0] (new 2 (-4) rngZ2)).sys_energy ≤ 3 * ((2 * 2 : ℕ) : ℤ) :=
  C5_amended_range (by norm_num) (-4) rngZ2 0

/-- C6: for every point whose row or column is 0 or L-1, all four neighbor
lookups of `get_delta` succeed (never out of bounds) and resolve via
wraparound: each lookup reads the lattice at the mod-`L` neighbor; in
particular a raw coordinate equal to `L` is redirected to row/column 0 by
`nn[nn == L] = 0`, and a raw coordinate `-1` reads row/column `L - 1` through
numpy's negative-index wrap. -/
theorem C6_periodic_boundary {L : ℕ} [NeZero L] (lat : Fin L → Fin L → ℤ) (p : Pt L)
    (h : (p.1 : ℕ) = 0 ∨ (p.1 : ℕ) = L - 1 ∨ (p.2 : ℕ) = 0 ∨ (p.2 : ℕ) = L - 1) :
    (npLookup lat (fixWrap L (((p.1 : ℕ) : ℤ) + 1, ((p.2 : ℕ) : ℤ))) =
        some (lat (p.1 + 1) p.2) ∧
      npLookup lat (fixWrap L (((p.1 : ℕ) : ℤ) - 1, ((p.2 : ℕ) : ℤ))) =
        some (lat (p.1 - 1) p.2) ∧
      npLookup lat (fixWrap L (((p.1 : ℕ) : ℤ), ((p.2 : ℕ) : ℤ) + 1)) =
        some (lat p.1 (p.2 + 1)) ∧
      npLookup lat (fixWrap L (((p.1 : ℕ) : ℤ), ((p.2 : ℕ) : ℤ) - 1)) =
        some (lat p.1 (p.2 - 1))) ∧
    ((p.1 : ℕ) = L - 1 → ((p.1 + 1 : Fin L) : ℕ) = 0) ∧
    ((p.1 : ℕ) = 0 → ((p.1 - 1 : Fin L) : ℕ) = L - 1) ∧
    ((p.2 : ℕ) = L - 1 → ((p.2 + 1 : Fin L) : ℕ) = 0) ∧
    ((p.2 : ℕ) = 0 → ((p.2 - 1 : Fin L) : ℕ) = L - 1) := by
  have hL := Fin.pos p.1
  refine ⟨⟨npLookup_row_add lat p, npLookup_row_sub lat p, npLookup_col_add lat p,
    npLookup_col_sub lat p⟩, fun h1 => ?_, fun h1 => ?_, fun h1 => ?_, fun h1 => ?_⟩
  · rw [fin_val_add_one, if_pos (by omega)]
  · rw [fin_val_sub_one, if_pos h1]
  · rw [fin_val_add_one, if_pos (by omega)]
  · rw [fin_val_sub_one, if_pos h1]

/-- Witness for C6: on the 3×3 lattice, the up-neighbor of a point in row 0
wraps to row 2. -/
theorem C6_periodic_boundary_witness :
    (((0 : Fin 3) - 1 : Fin 3) : ℕ) = 3 - 1 :=
  (C6_periodic_boundary lat3rej ((0 : Fin 3), (1 : Fin 3)) (Or.inl rfl)).2.2.1 rfl

/-- C7: for every in-bounds point `p`, the source's `get_delta` index pipeline
succeeds and returns exactly `2 * lattice[p] * (sum of the four
periodic-boundary neighbor spins)`, and when every spin is ±1 the value lies in
{-8, -4, 0, 4, 8}.  The embedding of `get_delta` is a pure function of the
lattice — the source writes only its local array `nn` — so the call mutates no
engine state. -/
theorem C7_delta_value {L : ℕ} [NeZero L] (lat : Fin L → Fin L → ℤ) (p : Pt L)
    (h : IsSpin lat) :
    get_delta_np lat p =
      some (2 * lat p.1 p.2 *
        (lat (p.1 + 1) p.2 + lat (p.1 - 1) p.2 + lat p.1 (p.2 + 1) +
          lat p.1 (p.2 - 1))) ∧
    get_delta lat p ∈ ([-8, -4, 0, 4, 8] : List ℤ) := by
  refine ⟨get_delta_np_eq lat p, ?_⟩
  unfold get_delta
  rcases h p.1 p.2 with hs | hs <;>
    rcases h (p.1 + 1) p.2 with h1 | h1 <;>
    rcases h (p.1 - 1) p.2 with h2 | h2 <;>
    rcases h p.1 (p.2 + 1) with h3 | h3 <;>
    rcases h p.1 (p.2 - 1) with h4 | h4 <;>
    rw [hs, h1, h2, h3, h4] <;> decide

/-- The all-up 2×2 lattice. -/
def latUp2 : Fin 2 → Fin 2 → ℤ := fun _ _ => 1

/-- Witness for C7: on the all-up 2×2 lattice the flip-delta at the origin is
in the admissible value set. -/
theorem C7_delta_value_witness :
    get_delta latUp2 ((0 : Fin 2), (0 : Fin 2)) ∈ ([-8, -4, 0, 4, 8] : List ℤ) :=
  (C7_delta_value latUp2 ((0 : Fin 2), (0 : Fin 2)) (fun _ _ => Or.inl rfl)).2

/-- C4: `step()` conserves `sys_energy + dem_energy` exactly, for every state. -/
theorem C4_energy_conservation : ∀ (L : ℕ) [NeZero L] (s : Sim L),
    (step s).sys_energy + (step s).dem_energy = s.sys_energy + s.dem_energy := by
  intro L _ s
  rw [step_sys, step_dem]
  exact sweep_sys_dem _ s

/-- `initBody` never changes the stored target energy. -/
lemma initBody_target {L : ℕ} [NeZero L] (e m : ℤ) (s : Sim L) :
    (initBody e m s).2.2.target_energy = s.target_energy := by
  unfold initBody
  dsimp only
  split <;> simp

/-- The trial loop performs at most `fuel` trials and stops either because the
energy reached the target or because the budget ran out. -/
lemma initLoop_exit {L : ℕ} [NeZero L] (fuel : ℕ) (e m : ℤ) (s : Sim L) :
    (initLoop L fuel e m s).2.2.1 ≤ fuel ∧
    (s.target_energy ≤ (initLoop L fuel e m s).1 ∨
      (initLoop L fuel e m s).2.2.1 = fuel) := by
  induction fuel generalizing e m s with
  | zero => exact ⟨le_refl 0, Or.inr rfl⟩
  | succ fuel ih =>
    rw [initLoop]
    split
    · dsimp only
      have htp := initBody_target e m s
      rcases ih (initBody e m s).1 (initBody e m s).2.1 (initBody e m s).2.2 with ⟨hle, hor⟩
      refine ⟨by omega, ?_⟩
      rcases hor with h | h
      · left; rwa [htp] at h
      · right; omega
    · exact ⟨Nat.zero_le _, Or.inl (by omega)⟩

/-- C8: `init` starts from the all-up lattice with local energy `-N`, flips
only candidates with `de > 0` (a trial with `de <= 0` leaves the energy and the
lattice unchanged), performs at most `10 * N` trials, and on return either the
energy reached `target_energy` or the whole `10 * N` budget was used; the final
energy may then be strictly below the target with no error signalled, as the
concrete run `IsingSim(1, 100)` shows (final `sys_energy = 79 < 100`). -/
theorem C8_init_termination :
    (∀ (L : ℕ) [NeZero L] (s : Sim L),
      (initLoop L (10 * (L * L)) (-(L * L : ℤ)) (L * L : ℤ) s).2.2.1 ≤ 10 * (L * L) ∧
      (s.target_energy ≤ (initLoop L (10 * (L * L)) (-(L * L : ℤ)) (L * L : ℤ) s).1 ∨
        (initLoop L (10 * (L * L)) (-(L * L : ℤ)) (L * L : ℤ) s).2.2.1 = 10 * (L * L))) ∧
    (∀ (L : ℕ) (t : ℤ) (rng : ℕ → ℕ → Pt L) (x y : Fin L),
      (mkSim L t rng).lattice x y = 1) ∧
    (∀ (L : ℕ) [NeZero L] (e m : ℤ) (s : Sim L),
      ¬0 < get_delta (get_random_pt s).2.lattice (get_random_pt s).1 →
        (initBody e m s).1 = e ∧ (initBody e m s).2.2.lattice = s.lattice) ∧
    (∀ (L : ℕ) [NeZero L] (e m : ℤ) (s : Sim L),
      0 < get_delta (get_random_pt s).2.lattice (get_random_pt s).1 →
        (initBody e m s).1 =
          e + get_delta (get_random_pt s).2.lattice (get_random_pt s).1) ∧
    ((new 1 100 rngZ1).sys_energy = 79 ∧ ¬(100 : ℤ) ≤ (new 1 100 rngZ1).sys_energy) := by
  refine ⟨fun L _ s => initLoop_exit _ _ _ _, fun L t rng x y => rfl, ?_, ?_,
    by decide, by decide⟩
  · intro L _ e m s h
    unfold initBody
    dsimp only
    rw [if_neg h]
    exact ⟨rfl, grp_lattice s⟩
  · intro L _ e m s h
    unfold initBody
    dsimp only
    rw [if_pos h]

/-- Witness for C8: the trial bound at the concrete construction `IsingSim(1, 100)`. -/
theorem C8_init_termination_witness :
    (initLoop 1 (10 * (1 * 1)) (-(1 * 1 : ℤ)) (1 * 1 : ℤ) (mkSim 1 100 rngZ1)).2.2.1 ≤
      10 * (1 * 1) :=
  (C8_init_termination.1 1 (mkSim 1 100 rngZ1)).1

/-- C1: after each sweep `step` stores, as the argument of the temperature
logarithm, the code's expression `1 + 4 / (dem_energy_acc / mcs * N)` — by
Python precedence `(acc / mcs) * N`.  At the concrete reachable state
`step(IsingSim(2, 100))` (with `rngA` the random stream) this stored value is
`17/16`, whereas the claim's formula `1 + 4 / (acc / sweep_count / N)`
evaluates to `2` on the same accumulator, sweep count and `N` — so the code
divides by `mcs` but multiplies by `N`, contradicting the claim. -/
theorem C1_temperature_formula :
    (∀ (L : ℕ) [NeZero L] (s : Sim L),
      (step s).temp_arg =
        1 + 4 / (((step s).dem_energy_acc : ℚ) / ((step s).mcs : ℚ) *
          ((L * L : ℕ) : ℚ))) ∧
    (step (new 2 100 rngA)).dem_energy_acc = 16 ∧
    (step (new 2 100 rngA)).mcs = 1 ∧
    (step (new 2 100 rngA)).temp_arg = 17 / 16 ∧
    temp_arg_spec ((step (new 2 100 rngA)).dem_energy_acc : ℚ)
      (((step (new 2 100 rngA)).mcs : ℕ) : ℚ) ((2 * 2 : ℕ) : ℚ) = 2 ∧
    (step (new 2 100 rngA)).temp_arg ≠
      temp_arg_spec ((step (new 2 100 rngA)).dem_energy_acc : ℚ)
        (((step (new 2 100 rngA)).mcs : ℕ) : ℚ) ((2 * 2 : ℕ) : ℚ) := by
  have hgen : ∀ (L : ℕ) [NeZero L] (s : Sim L),
      (step s).temp_arg =
        1 + 4 / (((step s).dem_energy_acc : ℚ) / ((step s).mcs : ℚ) *
          ((L * L : ℕ) : ℚ)) := fun L _ s => rfl
  have hacc : (step (new 2 100 rngA)).dem_energy_acc = 16 := by decide
  have hmcs : (step (new 2 100 rngA)).mcs = 1 := by decide
  have hta : (step (new 2 100 rngA)).temp_arg = 17 / 16 := by
    rw [hgen 2 (new 2 100 rngA), hacc, hmcs]
    norm_num
  have hspec : temp_arg_spec ((step (new 2 100 rngA)).dem_energy_acc : ℚ)
      (((step (new 2 100 rngA)).mcs : ℕ) : ℚ) ((2 * 2 : ℕ) : ℚ) = 2 := by
    rw [hacc, hmcs]
    unfold temp_arg_spec
    norm_num
  refine ⟨hgen, hacc, hmcs, hta, hspec, ?_⟩
  rw [hta, hspec]
  norm_num

/-- Witness for C1: the accumulator value at the concrete failing input. -/
theorem C1_temperature_formula_witness :
    (step (new 2 100 rngA)).dem_energy_acc = 16 :=
  C1_temperature_formula.2.1

/-- C2: the claimed invariant `magnetization = sum of all spins` fails already
at construction: with `L = 2` and `target_energy = -4` the trial loop performs
no flips, the lattice stays all-up with spin sum 4, but `init` discards its
local `mag` (line 51 updates a local that line 53 never stores), leaving the
stored `magnetization` at its `__init__` value 0. -/
theorem C2_magnetization_divergence :
    (new 2 (-4) rngZ2).magnetization = 0 ∧
    latticeSum (new 2 (-4) rngZ2).lattice = 4 ∧
    (new 2 (-4) rngZ2).magnetization ≠ latticeSum (new 2 (-4) rngZ2).lattice := by
  exact ⟨by decide, by decide, by decide⟩

/-- C9: every call to `get_random_pt` returns a pair with both components in
`[0, L)` (as `np.random.randint(L)` guarantees); the construction fixes the
batch size at `10240`; starting from a cursor in `[0, 10240]` the cursor stays
in `[0, 10240]`; and a fresh batch is drawn with the cursor passing through 0
exactly on the call at which the previous batch's 10240 points have all been
consumed (in which case the point served is entry 0 of the new batch). -/
theorem C9_supplier_invariant {L : ℕ} (s : Sim L)
    (h1 : s.nrand = 10240) (h2 : s.irand ≤ 10240) :
    (((get_random_pt s).1.1 : ℕ) < L ∧ ((get_random_pt s).1.2 : ℕ) < L) ∧
    (∀ (M : ℕ) (t : ℤ) (rng : ℕ → ℕ → Pt M), (mkSim M t rng).nrand = 10240) ∧
    (get_random_pt s).2.irand ≤ 10240 ∧
    (get_random_pt s).2.nrand = 10240 ∧
    ((get_random_pt s).2.batch = s.batch + 1 ↔ s.irand = 10240) ∧
    (s.irand = 10240 →
      (get_random_pt s).2.irand = 1 ∧ (get_random_pt s).1 = s.rng (s.batch + 1) 0) ∧
    (s.irand < 10240 →
      (get_random_pt s).2.batch = s.batch ∧ (get_random_pt s).2.irand = s.irand + 1 ∧
      (get_random_pt s).1 = s.rng s.batch s.irand) := by
  refine ⟨⟨(get_random_pt s).1.1.isLt, (get_random_pt s).1.2.isLt⟩, fun M t rng => rfl, ?_⟩
  rcases Nat.lt_or_ge s.irand 10240 with hlt | hge
  · have hc : ¬s.nrand ≤ s.irand := by omega
    rw [get_random_pt_snd, get_random_pt_fst, if_neg hc, if_neg hc]
    refine ⟨by dsimp; omega, by dsimp; omega, ?_, ?_, ?_⟩
    · dsimp; omega
    · intro h; omega
    · intro _; exact ⟨rfl, rfl, rfl⟩
  · have he : s.irand = 10240 := by omega
    have hc : s.nrand ≤ s.irand := by omega
    rw [get_random_pt_snd, get_random_pt_fst, if_pos hc, if_pos hc]
    refine ⟨by dsimp; omega, by dsimp; omega, ?_, ?_, ?_⟩
    · dsimp; omega
    · intro _; exact ⟨rfl, rfl⟩
    · intro h; omega

/-- Witness for C9: the supplier invariant at a concrete exhausted state. -/
theorem C9_supplier_invariant_witness :
    (get_random_pt sW).2.irand ≤ 10240 ∧ (get_random_pt sW).2.batch = sW.batch + 1 :=
  ⟨(C9_supplier_invariant sW (by decide) (by decide)).2.2.1,
   ((C9_supplier_invariant sW (by decide) (by decide)).2.2.2.2.1).2 (by decide)⟩

/-- C10: the demon energy is never negative: it is 0 after construction, the
`init` trial loop never changes it, and `step` preserves nonnegativity, so it
is nonnegative after any number of steps. -/
theorem C10_demon_energy_nonneg : ∀ (L : ℕ) [NeZero L] (t : ℤ) (rng : ℕ → ℕ → Pt L) (k : ℕ),
    (new L t rng).dem_energy = 0 ∧
    (∀ (fuel : ℕ) (e m : ℤ) (s : Sim L),
      (initLoop L fuel e m s).2.2.2.dem_energy = s.dem_energy) ∧
    0 ≤ (step^[k] (new L t rng)).dem_energy := by
  intro L _ t rng k
  refine ⟨new_dem t rng, fun fuel e m s => initLoop_dem fuel e m s, ?_⟩
  induction k with
  | zero => rw [Function.iterate_zero_apply, new_dem]
  | succ k ih =>
    rw [Function.iterate_succ_apply']
    exact step_dem_nonneg _ ih

/-- Witness for C4: conservation at the concrete construction `IsingSim(2, -4)`. -/
theorem C4_energy_conservation_witness :
    (step (new 2 (-4) rngZ2)).sys_energy + (step (new 2 (-4) rngZ2)).dem_energy =
      (new 2 (-4) rngZ2).sys_energy + (new 2 (-4) rngZ2).dem_energy :=
  C4_energy_conservation 2 (new 2 (-4) rngZ2)

/-- Witness for C10: zero demon energy at the concrete construction `IsingSim(2, -4)`. -/
theorem C10_demon_energy_nonneg_witness :
    (new 2 (-4) rngZ2).dem_energy = 0 :=
  (C10_demon_energy_nonneg 2 (-4) rngZ2 0).1

end Ising
